import Mathlib

/-!
Verification of the `RawFrame` core (`src/frame/raw.rs` of the nannou
repository) against its natural-language specification.

The development has two layers.

The first layer is a sequential, functional embedding of the Rust unit:
the `RawFrame` struct and its operations (`new_empty`, `finish`,
`command_encoder`, and the read-only accessors) are translated field by
field and line by line.  `std::sync::Mutex<wgpu::CommandEncoder>` is
embedded as the wrapped data together with its poison flag; a Rust panic
(`expect` firing) is embedded as `Except.error`, and a normal return as
`Except.ok`.  A `wgpu::CommandEncoder` is an append-only stream of
recorded commands, so it is embedded as the list of commands recorded so
far, in order.

The second layer is a small-step operational semantics for concurrent use
of a frame's recording mutex: any number of threads each acquire the
guard, append their commands one at a time through it, and release it.
The mutex is represented by an `owner` field; the semantics only lets a
thread append to the shared encoder while it is the owner, which is
exactly the serialisation the Rust mutex provides.  Rust's move semantics
for `finish(self)` (no `MutexGuard` borrow can be outstanding when the
frame is consumed by value) is embedded as the side condition
`owner = none` on the consuming transition of the frame lifecycle.
-/

namespace Nannou

/-- A single recorded GPU command, abstracted as a distinguishable marker
value: the frame core never inspects commands, it only stores them in
order. -/
structure Command where
  marker : Nat
deriving DecidableEq

/-- `geom::Rect`: the window's drawable rectangle.  The frame core only
stores and returns the value, performing no arithmetic on it, so its
coordinates are embedded as integers. -/
structure geom.Rect where
  x : Int
  y : Int
  w : Int
  h : Int
deriving DecidableEq

/-- `window::Id`: opaque identifier of the owning window. -/
structure window.Id where
  raw : Nat
deriving DecidableEq

/-- `wgpu::TextureFormat`: the pixel format of the surface texture,
abstracted as an opaque code. -/
structure wgpu.TextureFormat where
  code : Nat
deriving DecidableEq

/-- `wgpu::Device`: an opaque device handle.  The identity field exists so
that "queue and texture belong to the same device" is expressible. -/
structure wgpu.Device where
  id : Nat
deriving DecidableEq

/-- `wgpu::Queue`: an opaque execution-queue handle, remembering which
device it belongs to. -/
structure wgpu.Queue where
  device_id : Nat
  id : Nat
deriving DecidableEq

/-- `wgpu::TextureView`: the swap chain's current target texture,
remembering which device it was acquired from. -/
structure wgpu.TextureView where
  device_id : Nat
  id : Nat
deriving DecidableEq

/-- `wgpu::CommandEncoder`: a builder accumulating the ordered stream of
recorded commands. -/
structure wgpu.CommandEncoder where
  commands : List Command
deriving DecidableEq

/-- `wgpu::CommandEncoderDescriptor`: the descriptor passed at encoder
creation. -/
structure wgpu.CommandEncoderDescriptor where
  label : Option String := none
deriving DecidableEq

/-- `wgpu::CommandEncoderDescriptor::default()`. -/
def wgpu.CommandEncoderDescriptor.default : wgpu.CommandEncoderDescriptor :=
  {}

/-- `wgpu::Device::create_command_encoder`: creates a fresh command
encoder with no recorded commands.  This is the documented behaviour of
the external wgpu collaborator: a new encoder starts empty. -/
def wgpu.Device.create_command_encoder (_device : wgpu.Device)
    (_desc : wgpu.CommandEncoderDescriptor) : wgpu.CommandEncoder :=
  { commands := [] }

/-- `std::sync::Mutex<wgpu::CommandEncoder>` as seen by the sequential
API: the protected data together with the poison flag that is set when a
holder of the guard panics.  Whether the lock is currently held is not a
field here because a Rust `MutexGuard` borrows the mutex: held-ness is
tracked by the operational semantics below, where it matters. -/
structure sync.Mutex where
  data : wgpu.CommandEncoder
  poisoned : Bool
deriving DecidableEq

/-- `Mutex::lock` as seen by a caller that immediately panics on poison:
returns the protected encoder, or an error (the embedded panic) when the
lock is poisoned. -/
def sync.Mutex.lock (m : sync.Mutex) : Except String wgpu.CommandEncoder :=
  if m.poisoned then Except.error "PoisonError" else Except.ok m.data

/-- `Mutex::into_inner`: consumes the mutex (requiring full ownership, so
no guard can be outstanding) and returns the protected encoder, or a
poison error. -/
def sync.Mutex.into_inner (m : sync.Mutex) : Except String wgpu.CommandEncoder :=
  if m.poisoned then Except.error "PoisonError" else Except.ok m.data

/-- The `RawFrame` struct of `src/frame/raw.rs`, field by field.  The
`u64` frame counter is embedded as `Nat` because the core only stores and
returns it; references (`&TextureView`, `&Queue`) are embedded as the
referenced values. -/
structure RawFrame where
  command_encoder : sync.Mutex
  window_id : window.Id
  nth : Nat
  swap_chain_texture : wgpu.TextureView
  queue : wgpu.Queue
  texture_format : wgpu.TextureFormat
  window_rect : geom.Rect
deriving DecidableEq

/-- `RawFrame::new_empty`: builds the frame exactly as the source does,
wrapping a freshly created command encoder in a new (unpoisoned) mutex
and storing every argument unchanged.  Note that no relationship between
`device`, `queue` and `swap_chain_texture` is checked. -/
def RawFrame.new_empty (device : wgpu.Device) (queue : wgpu.Queue)
    (window_id : window.Id) (nth : Nat)
    (swap_chain_texture : wgpu.TextureView)
    (texture_format : wgpu.TextureFormat)
    (window_rect : geom.Rect) : RawFrame :=
  let ce_desc := wgpu.CommandEncoderDescriptor.default
  let command_encoder := device.create_command_encoder ce_desc
  let command_encoder : sync.Mutex := { data := command_encoder, poisoned := false }
  { command_encoder := command_encoder
    window_id := window_id
    nth := nth
    swap_chain_texture := swap_chain_texture
    queue := queue
    texture_format := texture_format
    window_rect := window_rect }

/-- `RawFrame::finish`: destructures the frame (taking it by value) and
calls `into_inner().expect("failed to lock command_encoder")` on the
mutex.  `expect` returns the encoder on `Ok` and panics on `Err`; the
panic is embedded as `Except.error` with the `expect` message. -/
def RawFrame.finish (f : RawFrame) : Except String wgpu.CommandEncoder :=
  match f.command_encoder.into_inner with
  | Except.ok encoder => Except.ok encoder
  | Except.error _ => Except.error "failed to lock command_encoder"

/-- The `RawFrame::command_encoder` method:
`self.command_encoder.lock().expect("failed to acquire lock to command encoder")`.
It returns the guard's view of the encoder, or panics (embedded as
`Except.error`) when the lock is poisoned.  The method shares its name
with the struct field in Rust; since the Lean projection already uses
that name, the method is embedded under the name `command_encoder_guard`. -/
def RawFrame.command_encoder_guard (f : RawFrame) :
    Except String wgpu.CommandEncoder :=
  match f.command_encoder.lock with
  | Except.ok encoder => Except.ok encoder
  | Except.error _ => Except.error "failed to acquire lock to command encoder"

/-- `RawFrame::rect`: returns the stored window rectangle. -/
def RawFrame.rect (f : RawFrame) : geom.Rect :=
  f.window_rect

/-- One guarded recording session in the sequential model: acquire the
guard via the `command_encoder` method, append `cs` through it in order,
and drop the guard (in Rust the guard is released on every exit path when
it goes out of scope; in this functional embedding the session returns
the updated frame, with no held lock persisting).  A poisoned lock makes
the acquisition panic, embedded as `Except.error`. -/
def RawFrame.record_via_guard (f : RawFrame) (cs : List Command) :
    Except String RawFrame :=
  match f.command_encoder_guard with
  | Except.error e => Except.error e
  | Except.ok encoder =>
      Except.ok { f with
        command_encoder :=
          { data := { commands := encoder.commands ++ cs }
            poisoned := f.command_encoder.poisoned } }

/-- Several guarded recording sessions in sequence, each acquiring and
releasing the guard once. -/
def RawFrame.record_all (f : RawFrame) :
    List (List Command) → Except String RawFrame
  | [] => Except.ok f
  | cs :: rest =>
    match f.record_via_guard cs with
    | Except.ok f2 => f2.record_all rest
    | Except.error e => Except.error e

/-- The phase of one thread in the concurrent-recording scenario: it has
not yet acquired the recording guard, it currently holds it, or it has
released it and finished. -/
inductive Phase
  | ready
  | holding
  | done
deriving DecidableEq

/-- One thread of the concurrent-recording scenario: the commands it has
still to append through the guard, and its phase. -/
structure ThreadSt where
  pending : List Command
  phase : Phase
deriving DecidableEq

/-- The shared state of the concurrent-recording scenario: the threads,
the current owner of the recording mutex (`none` when the lock is free),
and the command stream recorded so far in the single shared
`wgpu::CommandEncoder`. -/
structure SysState where
  threads : List ThreadSt
  owner : Option Nat
  encoder : List Command
deriving DecidableEq

/-- An atomic action of one thread `i`: acquire the recording guard
(blocking until the lock is free, so the action is only enabled when no
one owns it), append the next of its commands through the held guard, or
drop the guard. -/
inductive Action
  | acquire (i : Nat)
  | record (i : Nat)
  | release (i : Nat)
deriving DecidableEq

/-- The small-step semantics of the recording mutex.  `apply a s` is
`some s2` when action `a` is enabled in `s` and leads to `s2`, and `none`
when it is disabled.  A thread may acquire only when the lock is free
(this is the blocking of `Mutex::lock`), may append to the shared encoder
only while it is the owner (this is the exclusivity of the guard), and
releases by dropping the guard once its commands are appended. -/
def SysState.apply (s : SysState) : Action → Option SysState
  | Action.acquire i =>
    (s.threads[i]?).bind fun t =>
      if s.owner = none ∧ t.phase = Phase.ready then
        some { s with
          owner := some i
          threads := s.threads.set i { pending := t.pending, phase := Phase.holding } }
      else none
  | Action.record i =>
    (s.threads[i]?).bind fun t =>
      (t.pending.head?).bind fun c =>
        if s.owner = some i ∧ t.phase = Phase.holding then
          some { s with
            encoder := s.encoder ++ [c]
            threads := s.threads.set i { pending := t.pending.tail, phase := Phase.holding } }
        else none
  | Action.release i =>
    (s.threads[i]?).bind fun t =>
      if s.owner = some i ∧ t.phase = Phase.holding ∧ t.pending = [] then
        some { s with
          owner := none
          threads := s.threads.set i { pending := [], phase := Phase.done } }
      else none

/-- One step of the concurrent system: some thread performs an enabled
action. -/
def Step (s s2 : SysState) : Prop :=
  ∃ a : Action, s.apply a = some s2

/-- Zero or more steps. -/
def Reaches : SysState → SysState → Prop :=
  Relation.ReflTransGen Step

/-- The initial state of the concurrent-recording scenario for the per
thread command lists `progs`: every thread is ready with its full list
still pending, the lock is free, and the freshly created encoder is
empty (as `new_empty` guarantees). -/
def init (progs : List (List Command)) : SysState :=
  { threads := progs.map (fun p => { pending := p, phase := Phase.ready })
    owner := none
    encoder := [] }

/-- Run a list of actions in order; `none` if any action is disabled. -/
def SysState.runSeq (s : SysState) : List Action → Option SysState
  | [] => some s
  | a :: rest =>
    match s.apply a with
    | some s2 => s2.runSeq rest
    | none => none

/-- The number of threads currently holding the recording guard. -/
def holdersCount (s : SysState) : Nat :=
  s.threads.countP (fun t => decide (t.phase = Phase.holding))

/-- Thread `i` has finished: its commands are all appended and it has
released the guard. -/
def doneAt (s : SysState) (i : Nat) : Prop :=
  s.threads[i]? = some { pending := [], phase := Phase.done }

/-- Thread `i` has not started: all of its commands are pending. -/
def readyAt (progs : List (List Command)) (s : SysState) (i : Nat) : Prop :=
  s.threads[i]? = some { pending := progs.getD i [], phase := Phase.ready }

/-- The inductive invariant of the concurrent-recording semantics: there
is a list `order` of the threads that have completed their critical
sections, in completion order; every other thread is untouched unless it
is the current owner; and the shared encoder is exactly the
concatenation of the completed threads' command lists in that order,
followed by the already-appended prefix of the current owner's list (if
any).  This is the no-interleaving, no-loss, no-corruption property of
the mutex-serialised encoder. -/
def Inv (progs : List (List Command)) (s : SysState) : Prop :=
  s.threads.length = progs.length ∧
  ∃ order : List Nat,
    order.Nodup ∧
    (∀ i ∈ order, i < progs.length) ∧
    (∀ i ∈ order, doneAt s i) ∧
    (∀ i, i < progs.length → i ∉ order → s.owner ≠ some i → readyAt progs s i) ∧
    (s.owner = none → s.encoder = (order.map (fun i => progs.getD i [])).flatten) ∧
    (∀ j, s.owner = some j → j < progs.length ∧ j ∉ order ∧
       ∃ em pend,
         s.threads[j]? = some { pending := pend, phase := Phase.holding } ∧
         progs.getD j [] = em ++ pend ∧
         s.encoder = (order.map (fun i => progs.getD i [])).flatten ++ em)

/-- The lifecycle of one frame around its recording scope: while the
frame is live, application threads step the recording semantics; the
frame is then consumed exactly once by `finish`, which takes the
`RawFrame` by value and destroys the mutex, yielding the finished
command stream.  `finished` keeps only that stream: the moved-from frame
no longer exists, so no accessor, guard acquisition or second `finish`
can be expressed against it. -/
inductive FrameLife
  | active (s : SysState)
  | finished (commands : List Command)
deriving DecidableEq

/-- Transitions of the frame lifecycle: internal recording steps while
the frame is active, and the single consuming transition.  The side
condition `s.owner = none` on `consume` embeds Rust's move semantics: a
`MutexGuard` returned by the `command_encoder` method borrows the frame,
so the borrow checker rejects moving the frame into `finish(self)` while
any guard is outstanding — consumption is only possible with the lock
free. -/
inductive LifeStep : FrameLife → FrameLife → Prop
  | app {s s2 : SysState} : Step s s2 →
      LifeStep (FrameLife.active s) (FrameLife.active s2)
  | consume {s : SysState} : s.owner = none →
      LifeStep (FrameLife.active s) (FrameLife.finished s.encoder)

/-- The external frame-lifecycle manager's submission record: which queue
a finished command stream was handed to. -/
structure Submission where
  queue : wgpu.Queue
  commands : List Command
deriving DecidableEq

/-- Modelled from the spec: the end-of-frame step of the external
frame-lifecycle manager, which is part of this repository but outside the
unit under study (`RawFrame` itself only yields the finished context).
Per the spec, immediately after the view function returns the manager
consumes the handle via `finish` and submits the resulting command
stream, as a single submission, to the queue named by the handle's
`queue` accessor.  The returned list holds one `Submission` per
performed submit, so "exactly once" is the list having length one. -/
def end_of_frame (f : RawFrame) : Except String (List Submission) :=
  match f.finish with
  | Except.ok encoder => Except.ok [{ queue := f.queue, commands := encoder.commands }]
  | Except.error e => Except.error e

/-- The n single-marker thread programs used in concrete executions of
the recording semantics: thread k appends the single marker command k. -/
def progsN (n : Nat) : List (List Command) :=
  (List.range n).map (fun k => [{ marker := k }])

/-- The schedule in which the threads of `progsN n` run their critical
sections one after the other: thread k acquires, appends its marker and
releases, for k = 0 up to n - 1. -/
def actsN (n : Nat) : List Action :=
  (List.range n).flatMap
    (fun k => [Action.acquire k, Action.record k, Action.release k])

/-- The state in which every one of n single-marker threads is done and
the markers sit in the encoder in thread order. -/
def finalN (n : Nat) : SysState :=
  { threads := List.replicate n { pending := [], phase := Phase.done }
    owner := none
    encoder := (List.range n).map (fun k => { marker := k }) }

/-- A concrete frame used to instantiate theorems about the sequential
API: window 1, frame number 0, an 800 by 600 rectangle. -/
def frameW : RawFrame :=
  RawFrame.new_empty { id := 0 } { device_id := 0, id := 0 } { raw := 1 } 0
    { device_id := 0, id := 0 } { code := 0 } { x := 0, y := 0, w := 800, h := 600 }

/-- A frame whose recording mutex has been poisoned by a panicking guard
holder, used to instantiate the poisoning theorems. -/
def framePoisoned : RawFrame :=
  { frameW with command_encoder := { data := { commands := [] }, poisoned := true } }

/-- A reachable state in which thread 0 holds the guard and has appended
the first of its two markers, used to instantiate the mutual-exclusion
theorem. -/
def sW4 : SysState :=
  { threads := [{ pending := [{ marker := 6 }], phase := Phase.holding }]
    owner := some 0
    encoder := [{ marker := 5 }] }

/-- The frame `frameW` after one guarded session appending marker 7. -/
def frameWrec : RawFrame :=
  { frameW with
    command_encoder := { data := { commands := [{ marker := 7 }] }, poisoned := false } }

/-- The frame `frameW` after one guarded session appending marker 9. -/
def frameWsub : RawFrame :=
  { frameW with
    command_encoder := { data := { commands := [{ marker := 9 }] }, poisoned := false } }

/-- Executing a list of actions step by step yields a reachable state. -/
theorem runSeq_reaches :
    ∀ (acts : List Action) (s s2 : SysState),
      s.runSeq acts = some s2 → Reaches s s2 := by
  intro acts
  induction acts with
  | nil =>
    intro s s2 h
    simp only [SysState.runSeq] at h
    cases h
    exact Relation.ReflTransGen.refl
  | cons a rest ih =>
    intro s s2 h
    simp only [SysState.runSeq] at h
    cases happ : s.apply a with
    | none => rw [happ] at h; cases h
    | some s1 =>
      rw [happ] at h
      exact Relation.ReflTransGen.head ⟨a, happ⟩ (ih s1 s2 h)

/-- The invariant holds in the initial state. -/
theorem Inv_init (progs : List (List Command)) : Inv progs (init progs) := by
  refine ⟨by simp [init], [], List.nodup_nil, by simp, by simp [doneAt], ?_,
    by simp [init], by intro j hc; simp [init] at hc⟩
  intro i hi _ _
  simp [readyAt, init, List.getElem?_map, List.getElem?_eq_getElem hi,
    List.getD_eq_getElem?_getD]

/-- A successful indexed lookup implies the index is in bounds. -/
theorem lt_of_getElem?_eq_some {α : Type _} {l : List α} {i : Nat} {a : α}
    (h : l[i]? = some a) : i < l.length := by
  rcases List.getElem?_eq_some_iff.mp h with ⟨hlt, _⟩
  exact hlt

/-- Acquiring the guard preserves the invariant. -/
theorem Inv_acquire (progs : List (List Command)) (s s2 : SysState) (i : Nat)
    (hInv : Inv progs s) (h : s.apply (Action.acquire i) = some s2) :
    Inv progs s2 := by
  obtain ⟨hlen, order, hnd, hbound, hdone, hready, hencN, hencS⟩ := hInv
  simp only [SysState.apply] at h
  cases ht : s.threads[i]? with
  | none => rw [ht] at h; exact Option.noConfusion h
  | some t =>
  simp only [ht, Option.some_bind] at h
  by_cases hc : s.owner = none ∧ t.phase = Phase.ready
  · rw [if_pos hc] at h
    obtain ⟨how, hph⟩ := hc
    injection h with h
    subst h
    have hilt : i < s.threads.length := lt_of_getElem?_eq_some ht
    have hiprogs : i < progs.length := hlen ▸ hilt
    have hiord : i ∉ order := by
      intro hmem
      have hd := hdone i hmem
      unfold doneAt at hd
      rw [ht] at hd
      injection hd with hd
      rw [hd] at hph
      simp at hph
    have hrdy := hready i hiprogs hiord (by rw [how]; intro hcc; exact Option.noConfusion hcc)
    unfold readyAt at hrdy
    rw [ht] at hrdy
    injection hrdy with hrdy
    have hpend : t.pending = progs.getD i [] := by rw [hrdy]
    refine ⟨by simpa using hlen, order, hnd, hbound, ?_, ?_, ?_, ?_⟩
    · intro k hk
      have hki : i ≠ k := fun hik => hiord (hik ▸ hk)
      have hd := hdone k hk
      unfold doneAt at hd ⊢
      simpa [List.getElem?_set_ne hki] using hd
    · intro k hklt hkord hown2
      have hki : i ≠ k := by
        intro hik
        subst hik
        exact hown2 rfl
      have hr := hready k hklt hkord (by rw [how]; intro hcc; exact Option.noConfusion hcc)
      unfold readyAt at hr ⊢
      simpa [List.getElem?_set_ne hki] using hr
    · intro hcc
      simp at hcc
    · intro j hj
      have hij : i = j := by simpa using hj
      subst hij
      refine ⟨hiprogs, hiord, [], t.pending, ?_, ?_, ?_⟩
      · exact List.getElem?_set_self hilt
      · simp [hpend]
      · simpa using hencN how
  · rw [if_neg hc] at h; exact Option.noConfusion h

/-- Appending one command through the held guard preserves the
invariant. -/
theorem Inv_record (progs : List (List Command)) (s s2 : SysState) (i : Nat)
    (hInv : Inv progs s) (h : s.apply (Action.record i) = some s2) :
    Inv progs s2 := by
  obtain ⟨hlen, order, hnd, hbound, hdone, hready, hencN, hencS⟩ := hInv
  simp only [SysState.apply] at h
  cases ht : s.threads[i]? with
  | none => rw [ht] at h; exact Option.noConfusion h
  | some t =>
  simp only [ht, Option.some_bind] at h
  cases hp : t.pending with
  | nil => rw [hp] at h; exact Option.noConfusion h
  | cons c rest =>
  simp only [hp, List.head?_cons, Option.some_bind] at h
  by_cases hc : s.owner = some i ∧ t.phase = Phase.holding
  · rw [if_pos hc] at h
    obtain ⟨how, hph⟩ := hc
    injection h with h
    subst h
    obtain ⟨hiprogs, hiord, em, pend, hith, hsplit, hE⟩ := hencS i how
    rw [ht] at hith
    injection hith with hith
    rw [hith] at hp
    simp at hp
    have hilt : i < s.threads.length := lt_of_getElem?_eq_some ht
    refine ⟨by simpa using hlen, order, hnd, hbound, ?_, ?_, ?_, ?_⟩
    · intro k hk
      have hki : i ≠ k := fun hik => hiord (hik ▸ hk)
      have hd := hdone k hk
      unfold doneAt at hd ⊢
      simpa [List.getElem?_set_ne hki] using hd
    · intro k hklt hkord hown2
      have hki : i ≠ k := by
        intro hik
        apply hown2
        show s.owner = some k
        rw [how, hik]
      have hr := hready k hklt hkord
        (by rw [how]; intro hcc; injection hcc with hcc; exact hki hcc)
      unfold readyAt at hr ⊢
      simpa [List.getElem?_set_ne hki] using hr
    · intro hcc
      simp [how] at hcc
    · intro j hj
      have hij : i = j := by simpa [how] using hj
      subst hij
      refine ⟨hiprogs, hiord, em ++ [c], rest, ?_, ?_, ?_⟩
      · rw [List.getElem?_set_self hilt]
        simp [hith, hp]
      · rw [hsplit, hp]
        simp
      · show s.encoder ++ [c] = _
        rw [hE]
        simp [List.append_assoc]
  · rw [if_neg hc] at h; exact Option.noConfusion h

/-- Releasing the guard preserves the invariant: the releasing thread's
full command list is now a completed block at the end of the encoder, so
it joins the completion order. -/
theorem Inv_release (progs : List (List Command)) (s s2 : SysState) (i : Nat)
    (hInv : Inv progs s) (h : s.apply (Action.release i) = some s2) :
    Inv progs s2 := by
  obtain ⟨hlen, order, hnd, hbound, hdone, hready, hencN, hencS⟩ := hInv
  simp only [SysState.apply] at h
  cases ht : s.threads[i]? with
  | none => rw [ht] at h; exact Option.noConfusion h
  | some t =>
  simp only [ht, Option.some_bind] at h
  by_cases hc : s.owner = some i ∧ t.phase = Phase.holding ∧ t.pending = []
  · rw [if_pos hc] at h
    obtain ⟨how, hph, hpe⟩ := hc
    injection h with h
    subst h
    obtain ⟨hiprogs, hiord, em, pend, hith, hsplit, hE⟩ := hencS i how
    rw [ht] at hith
    injection hith with hith
    rw [hith] at hpe
    simp at hpe
    have hilt : i < s.threads.length := lt_of_getElem?_eq_some ht
    have hem : em = progs.getD i [] := by
      rw [hsplit, hpe, List.append_nil]
    refine ⟨by simpa using hlen, order ++ [i], ?_, ?_, ?_, ?_, ?_, ?_⟩
    · simp [List.nodup_append, hnd, hiord]
    · intro k hk
      rcases List.mem_append.mp hk with hk2 | hk2
      · exact hbound k hk2
      · have : k = i := by simpa using hk2
        subst this
        exact hiprogs
    · intro k hk
      rcases List.mem_append.mp hk with hk2 | hk2
      · have hki : i ≠ k := fun hik => hiord (hik ▸ hk2)
        have hd := hdone k hk2
        unfold doneAt at hd ⊢
        simpa [List.getElem?_set_ne hki] using hd
      · have : k = i := by simpa using hk2
        subst this
        unfold doneAt
        exact List.getElem?_set_self hilt
    · intro k hklt hkord hown2
      have hknotin : k ∉ order := fun hm => hkord (List.mem_append.mpr (Or.inl hm))
      have hki : i ≠ k := by
        intro hik
        exact hkord (List.mem_append.mpr (Or.inr (by simp [hik])))
      have hr := hready k hklt hknotin
        (by rw [how]; intro hcc; injection hcc with hcc; exact hki hcc)
      unfold readyAt at hr ⊢
      simpa [List.getElem?_set_ne hki] using hr
    · intro _
      show s.encoder = _
      rw [hE, hem]
      simp
    · intro j hj
      simp at hj
  · rw [if_neg hc] at h; exact Option.noConfusion h

/-- Every step of the semantics preserves the invariant. -/
theorem Inv_step (progs : List (List Command)) (s s2 : SysState)
    (hInv : Inv progs s) (h : Step s s2) : Inv progs s2 := by
  obtain ⟨a, ha⟩ := h
  cases a with
  | acquire i => exact Inv_acquire progs s s2 i hInv ha
  | record i => exact Inv_record progs s s2 i hInv ha
  | release i => exact Inv_release progs s s2 i hInv ha

/-- The invariant holds in every reachable state. -/
theorem reaches_Inv (progs : List (List Command)) (s : SysState)
    (h : Reaches (init progs) s) : Inv progs s := by
  unfold Reaches at h
  induction h with
  | refl => exact Inv_init progs
  | tail _ hstep ih => exact Inv_step progs _ _ ih hstep

/-- In any invariant state, the guard has at most one holder: a thread in
phase `holding` must be the owner recorded in the mutex. -/
theorem Inv_holder_is_owner (progs : List (List Command)) (s : SysState)
    (hInv : Inv progs s) :
    ∀ k tk, s.threads[k]? = some tk → tk.phase = Phase.holding →
      s.owner = some k := by
  obtain ⟨hlen, order, hnd, hbound, hdoneO, hready, hencN, hencS⟩ := hInv
  intro k tk hk hph
  have hklen : k < progs.length := hlen ▸ lt_of_getElem?_eq_some hk
  cases howc : s.owner with
  | none =>
    exfalso
    by_cases hkord : k ∈ order
    · have hd := hdoneO k hkord
      unfold doneAt at hd
      rw [hk] at hd
      injection hd with hd
      rw [hd] at hph
      simp at hph
    · have hr := hready k hklen hkord
        (by rw [howc]; intro hcc; exact Option.noConfusion hcc)
      unfold readyAt at hr
      rw [hk] at hr
      injection hr with hr
      rw [hr] at hph
      simp at hph
  | some j2 =>
    by_cases hkj : k = j2
    · rw [hkj]
    · exfalso
      by_cases hkord : k ∈ order
      · have hd := hdoneO k hkord
        unfold doneAt at hd
        rw [hk] at hd
        injection hd with hd
        rw [hd] at hph
        simp at hph
      · have hr := hready k hklen hkord
          (by rw [howc]; intro hcc; injection hcc with hcc; exact hkj hcc.symm)
        unfold readyAt at hr
        rw [hk] at hr
        injection hr with hr
        rw [hr] at hph
        simp at hph

/-- A list whose positive positions (for a Boolean predicate) all
coincide contains at most one positive element. -/
theorem countP_le_one_of_unique {α : Type _} (p : α → Bool) :
    ∀ l : List α,
      (∀ (i j : Nat) (a b : α), l[i]? = some a → l[j]? = some b →
        p a = true → p b = true → i = j) →
      l.countP p ≤ 1 := by
  intro l
  induction l with
  | nil => intro _; simp
  | cons x xs ih =>
    intro huniq
    by_cases hx : p x = true
    · rw [List.countP_cons_of_pos p xs hx]
      have hzero : xs.countP p = 0 := by
        rw [List.countP_eq_zero]
        intro a ha hpa
        obtain ⟨j, hj⟩ := List.mem_iff_getElem?.mp ha
        have hcon := huniq (j + 1) 0 a x (by simpa using hj) (by simp) hpa hx
        exact absurd hcon (by omega)
      omega
    · rw [List.countP_cons_of_neg p xs hx]
      apply ih
      intro i j a b hi hj hpa hpb
      have hcon := huniq (i + 1) (j + 1) a b (by simpa using hi) (by simpa using hj) hpa hpb
      omega

/-- In any reachable state of the concurrent-recording semantics at most
one thread holds the recording guard. -/
theorem reaches_holdersCount_le_one (progs : List (List Command)) (s : SysState)
    (hreach : Reaches (init progs) s) : holdersCount s ≤ 1 := by
  apply countP_le_one_of_unique
  intro i j a b hi hj hpa hpb
  have hInv := reaches_Inv progs s hreach
  have ha : a.phase = Phase.holding := by simpa using hpa
  have hb : b.phase = Phase.holding := by simpa using hpb
  have h1 := Inv_holder_is_owner progs s hInv i a hi ha
  have h2 := Inv_holder_is_owner progs s hInv j b hj hb
  rw [h1] at h2
  injection h2

/-- A single guarded recording session succeeds on an unpoisoned frame
and appends its commands, in order, at the end of the recorded stream. -/
theorem record_via_guard_ok (f : RawFrame) (cs : List Command)
    (hp : f.command_encoder.poisoned = false) :
    f.record_via_guard cs = Except.ok { f with
      command_encoder := { data := { commands := f.command_encoder.data.commands ++ cs }
                           poisoned := false } } := by
  unfold RawFrame.record_via_guard RawFrame.command_encoder_guard sync.Mutex.lock
  rw [hp]
  simp

/-- Unfolding `record_all` by one successful session. -/
theorem record_all_cons_ok (f f2 : RawFrame) (cs : List Command)
    (rest : List (List Command)) (h : f.record_via_guard cs = Except.ok f2) :
    f.record_all (cs :: rest) = f2.record_all rest := by
  simp only [RawFrame.record_all, h]

/-- Any sequence of guarded recording sessions on an unpoisoned frame
succeeds and leaves the encoder holding the previous commands followed by
every session's commands, in order: nothing is dropped, reordered or
interleaved, and only the encoder field of the frame changes. -/
theorem record_all_ok (css : List (List Command)) :
    ∀ f : RawFrame, f.command_encoder.poisoned = false →
      f.record_all css = Except.ok { f with
        command_encoder := { data := { commands := f.command_encoder.data.commands ++ css.flatten }
                             poisoned := false } } := by
  induction css with
  | nil =>
    intro f hp
    obtain ⟨⟨⟨cmds⟩, po⟩, wid, n, tex, q, fmt, rect⟩ := f
    simp at hp
    subst hp
    simp [RawFrame.record_all]
  | cons cs rest ih =>
    intro f hp
    rw [record_all_cons_ok f _ cs rest (record_via_guard_ok f cs hp)]
    rw [ih _ rfl]
    simp


/-- Claim C1: for every N threads that each acquire the recording guard
via the `command_encoder` method and append their distinguishable marker
commands through it, any complete execution (all threads done) leaves the
shared encoder holding exactly the threads' command lists concatenated in
some total order of the threads — a permutation of all thread indices —
so every thread's markers appear contiguously and in their internal
order, with no interleaved, corrupted or lost markers: the
mutual-exclusion lock serialises guard holders in lock-acquisition
order. -/
theorem raw_frame_concurrent_guard_recording
    (progs : List (List Command)) (s : SysState)
    (hreach : Reaches (init progs) s)
    (hdone : ∀ t ∈ s.threads, t.phase = Phase.done) :
    ∃ order : List Nat,
      order.Perm (List.range progs.length) ∧
      s.encoder = (order.map (fun i => progs.getD i [])).flatten := by
  obtain ⟨hlen, order, hnd, hbound, hdoneO, hready, hencN, hencS⟩ :=
    reaches_Inv progs s hreach
  have how : s.owner = none := by
    cases howc : s.owner with
    | none => rfl
    | some j =>
      obtain ⟨_, _, em, pend, hith, _, _⟩ := hencS j howc
      have hmem : ({ pending := pend, phase := Phase.holding } : ThreadSt) ∈ s.threads :=
        List.mem_iff_getElem?.mpr ⟨j, hith⟩
      have hcon := hdone _ hmem
      simp at hcon
  refine ⟨order, ?_, hencN how⟩
  rw [List.perm_ext_iff_of_nodup hnd (List.nodup_range _)]
  intro k
  constructor
  · intro hk
    exact List.mem_range.mpr (hbound k hk)
  · intro hk
    by_contra hkord
    have hr := hready k (List.mem_range.mp hk) hkord
      (by rw [how]; intro hcc; exact Option.noConfusion hcc)
    unfold readyAt at hr
    have hmem : ({ pending := progs.getD k [], phase := Phase.ready } : ThreadSt) ∈ s.threads :=
      List.mem_iff_getElem?.mpr ⟨k, hr⟩
    have hcon := hdone _ hmem
    simp at hcon

/-- Witness for C1: concrete sequential executions of one, two and eight
single-marker threads, each reaching the all-done state, instantiating
the concurrent-recording theorem. -/
theorem raw_frame_concurrent_guard_recording_witness :
    ((Reaches (init (progsN 1)) (finalN 1) ∧
        ∀ t ∈ (finalN 1).threads, t.phase = Phase.done) ∧
      (∃ order : List Nat, order.Perm (List.range (progsN 1).length) ∧
        (finalN 1).encoder = (order.map (fun i => (progsN 1).getD i [])).flatten)) ∧
    ((Reaches (init (progsN 2)) (finalN 2) ∧
        ∀ t ∈ (finalN 2).threads, t.phase = Phase.done) ∧
      (∃ order : List Nat, order.Perm (List.range (progsN 2).length) ∧
        (finalN 2).encoder = (order.map (fun i => (progsN 2).getD i [])).flatten)) ∧
    ((Reaches (init (progsN 8)) (finalN 8) ∧
        ∀ t ∈ (finalN 8).threads, t.phase = Phase.done) ∧
      (∃ order : List Nat, order.Perm (List.range (progsN 8).length) ∧
        (finalN 8).encoder = (order.map (fun i => (progsN 8).getD i [])).flatten)) :=
  ⟨⟨⟨runSeq_reaches (actsN 1) _ _ (by decide), by decide⟩,
    raw_frame_concurrent_guard_recording (progsN 1) (finalN 1)
      (runSeq_reaches (actsN 1) _ _ (by decide)) (by decide)⟩,
   ⟨⟨runSeq_reaches (actsN 2) _ _ (by decide), by decide⟩,
    raw_frame_concurrent_guard_recording (progsN 2) (finalN 2)
      (runSeq_reaches (actsN 2) _ _ (by decide)) (by decide)⟩,
   ⟨⟨runSeq_reaches (actsN 8) _ _ (by decide), by decide⟩,
    raw_frame_concurrent_guard_recording (progsN 8) (finalN 8)
      (runSeq_reaches (actsN 8) _ _ (by decide)) (by decide)⟩⟩

/-- Claim C2: consuming a `RawFrame` via `finish` returns the inner
command encoder containing every command recorded through any guard
acquisition before consumption, in recording order — nothing recorded is
dropped or reordered by consumption. -/
theorem raw_frame_finish_returns_all_recorded (f : RawFrame)
    (css : List (List Command)) (hp : f.command_encoder.poisoned = false) :
    ∃ f2, f.record_all css = Except.ok f2 ∧
      f2.finish = Except.ok
        { commands := f.command_encoder.data.commands ++ css.flatten } := by
  refine ⟨_, record_all_ok css f hp, ?_⟩
  unfold RawFrame.finish sync.Mutex.into_inner
  simp

/-- Witness for C2: two guarded sessions recording markers 1 and 2 on a
fresh frame; `finish` returns exactly those two markers in order. -/
theorem raw_frame_finish_returns_all_recorded_witness :
    frameW.command_encoder.poisoned = false ∧
    ∃ f2, frameW.record_all [[{ marker := 1 }], [{ marker := 2 }]] = Except.ok f2 ∧
      f2.finish = Except.ok { commands :=
        frameW.command_encoder.data.commands ++
          [[{ marker := 1 }], [{ marker := 2 }]].flatten } :=
  ⟨by decide,
   raw_frame_finish_returns_all_recorded frameW
     [[{ marker := 1 }], [{ marker := 2 }]] (by decide)⟩

/-- Claim C3: every accessor of a frame built by `new_empty` returns
exactly the corresponding construction-time value.  The accessors are
pure projections in this embedding — applying one to the same frame
yields the same value on every call and cannot mutate the handle. -/
theorem raw_frame_accessors_pure (device : wgpu.Device) (queue : wgpu.Queue)
    (window_id : window.Id) (nth : Nat) (tex : wgpu.TextureView)
    (fmt : wgpu.TextureFormat) (rect : geom.Rect) :
    (RawFrame.new_empty device queue window_id nth tex fmt rect).window_id = window_id ∧
    (RawFrame.new_empty device queue window_id nth tex fmt rect).nth = nth ∧
    (RawFrame.new_empty device queue window_id nth tex fmt rect).swap_chain_texture = tex ∧
    (RawFrame.new_empty device queue window_id nth tex fmt rect).queue = queue ∧
    (RawFrame.new_empty device queue window_id nth tex fmt rect).texture_format = fmt ∧
    (RawFrame.new_empty device queue window_id nth tex fmt rect).rect = rect :=
  ⟨rfl, rfl, rfl, rfl, rfl, rfl⟩

/-- Claim C4: the `command_encoder` method yields an exclusive guard over
the single recording context — in every reachable state of the recording
semantics at most one thread holds the guard (acquisition blocks while
another holds it, and release happens on every exit from the guard's
scope by construction of the semantics) — and the call fails, fatally,
exactly when the lock was poisoned by a prior panic while held. -/
theorem raw_frame_command_encoder_guard_exclusive (f : RawFrame)
    (progs : List (List Command)) (s : SysState)
    (hreach : Reaches (init progs) s) :
    ((∃ e, f.command_encoder_guard = Except.error e) ↔
      f.command_encoder.poisoned = true) ∧
    holdersCount s ≤ 1 := by
  constructor
  · unfold RawFrame.command_encoder_guard sync.Mutex.lock
    cases hp : f.command_encoder.poisoned with
    | false => simp
    | true => simp
  · exact reaches_holdersCount_le_one progs s hreach

/-- Witness for C4: a concrete reachable state with one holder, and a
concrete unpoisoned frame whose guard acquisition does not fail. -/
theorem raw_frame_command_encoder_guard_exclusive_witness :
    Reaches (init [[{ marker := 5 }, { marker := 6 }]]) sW4 ∧
    (((∃ e, frameW.command_encoder_guard = Except.error e) ↔
        frameW.command_encoder.poisoned = true) ∧
      holdersCount sW4 ≤ 1) :=
  ⟨runSeq_reaches [Action.acquire 0, Action.record 0] _ _ (by decide),
   raw_frame_command_encoder_guard_exclusive frameW
     [[{ marker := 5 }, { marker := 6 }]] sW4
     (runSeq_reaches [Action.acquire 0, Action.record 0] _ _ (by decide))⟩

/-- Claim C5: consumption is a one-way, irreversible transition: the
`finished` lifecycle state is terminal, so no operation of the handle —
no recording step and no second consume — can follow a `finish`.  In the
Rust source this is enforced by `finish(self)` taking the frame by value;
in the embedding the consumed frame has no outgoing transition at all,
so in particular a second consume cannot silently succeed. -/
theorem raw_frame_consumed_is_terminal (cs : List Command) (l : FrameLife) :
    LifeStep (FrameLife.finished cs) l = False := by
  apply eq_false
  intro h
  cases h

/-- Claim C6: every `new_empty` call wraps a freshly created, empty
command encoder obtained from the supplied device in a new unpoisoned
mutex.  In particular, for two handles constructed sequentially for the
same window with frame numbers 0 and 1, recording into the first leaves
the second handle's encoder empty — no recording state leaks between
handles — and the second frame number exceeds the first. -/
theorem raw_frame_new_empty_fresh (device : wgpu.Device) (queue : wgpu.Queue)
    (wid : window.Id) (tex : wgpu.TextureView) (fmt : wgpu.TextureFormat)
    (rect : geom.Rect) (cs : List Command) (f1 : RawFrame)
    (hrec : (RawFrame.new_empty device queue wid 0 tex fmt rect).record_via_guard cs
      = Except.ok f1) :
    f1.command_encoder.data.commands = cs ∧
    (RawFrame.new_empty device queue wid 1 tex fmt rect).command_encoder =
      { data := device.create_command_encoder wgpu.CommandEncoderDescriptor.default
        poisoned := false } ∧
    (RawFrame.new_empty device queue wid 1 tex fmt rect).command_encoder.data.commands = [] ∧
    (RawFrame.new_empty device queue wid 1 tex fmt rect).nth >
      (RawFrame.new_empty device queue wid 0 tex fmt rect).nth := by
  refine ⟨?_, rfl, rfl, Nat.one_pos⟩
  rw [record_via_guard_ok _ _ rfl] at hrec
  injection hrec with hrec
  rw [← hrec]
  simp [RawFrame.new_empty, wgpu.Device.create_command_encoder]

/-- Witness for C6: concrete construction of frames 0 and 1 for window 1,
with marker 7 recorded into frame 0. -/
theorem raw_frame_new_empty_fresh_witness :
    (RawFrame.new_empty { id := 0 } { device_id := 0, id := 0 } { raw := 1 } 0
        { device_id := 0, id := 0 } { code := 0 }
        { x := 0, y := 0, w := 800, h := 600 }).record_via_guard [{ marker := 7 }]
      = Except.ok frameWrec ∧
    (frameWrec.command_encoder.data.commands = [{ marker := 7 }] ∧
      (RawFrame.new_empty { id := 0 } { device_id := 0, id := 0 } { raw := 1 } 1
          { device_id := 0, id := 0 } { code := 0 }
          { x := 0, y := 0, w := 800, h := 600 }).command_encoder =
        { data := wgpu.Device.create_command_encoder { id := 0 }
            wgpu.CommandEncoderDescriptor.default
          poisoned := false } ∧
      (RawFrame.new_empty { id := 0 } { device_id := 0, id := 0 } { raw := 1 } 1
          { device_id := 0, id := 0 } { code := 0 }
          { x := 0, y := 0, w := 800, h := 600 }).command_encoder.data.commands = [] ∧
      (RawFrame.new_empty { id := 0 } { device_id := 0, id := 0 } { raw := 1 } 1
          { device_id := 0, id := 0 } { code := 0 }
          { x := 0, y := 0, w := 800, h := 600 }).nth >
        (RawFrame.new_empty { id := 0 } { device_id := 0, id := 0 } { raw := 1 } 0
          { device_id := 0, id := 0 } { code := 0 }
          { x := 0, y := 0, w := 800, h := 600 }).nth) :=
  ⟨rfl,
   raw_frame_new_empty_fresh { id := 0 } { device_id := 0, id := 0 } { raw := 1 }
     { device_id := 0, id := 0 } { code := 0 } { x := 0, y := 0, w := 800, h := 600 }
     [{ marker := 7 }] frameWrec rfl⟩

/-- Claim C7: construction performs no validation of the device/queue
precondition: for every combination of inputs, even a queue or surface
texture that does not belong to the supplied device, `new_empty` raises
no error and returns a fully formed handle storing the inputs
unchanged. -/
theorem raw_frame_new_empty_unvalidated (device : wgpu.Device) (queue : wgpu.Queue)
    (wid : window.Id) (nth : Nat) (tex : wgpu.TextureView)
    (fmt : wgpu.TextureFormat) (rect : geom.Rect)
    (hmismatch : queue.device_id ≠ device.id ∨ tex.device_id ≠ device.id) :
    ∃ f : RawFrame, RawFrame.new_empty device queue wid nth tex fmt rect = f ∧
      f.queue = queue ∧ f.swap_chain_texture = tex ∧ f.window_id = wid ∧
      f.nth = nth ∧ f.texture_format = fmt ∧ f.rect = rect ∧
      f.command_encoder = { data := { commands := [] }, poisoned := false } :=
  ⟨_, rfl, rfl, rfl, rfl, rfl, rfl, rfl, rfl⟩

/-- Witness for C7: a queue belonging to device 1 combined with device 0
and a texture acquired from device 2 — construction still succeeds. -/
theorem raw_frame_new_empty_unvalidated_witness :
    (({ device_id := 1, id := 0 } : wgpu.Queue).device_id ≠ ({ id := 0 } : wgpu.Device).id ∨
      ({ device_id := 2, id := 3 } : wgpu.TextureView).device_id ≠ ({ id := 0 } : wgpu.Device).id) ∧
    (∃ f : RawFrame,
      RawFrame.new_empty { id := 0 } { device_id := 1, id := 0 } { raw := 4 } 5
        { device_id := 2, id := 3 } { code := 6 }
        { x := 1, y := 2, w := 30, h := 40 } = f ∧
      f.queue = { device_id := 1, id := 0 } ∧
      f.swap_chain_texture = { device_id := 2, id := 3 } ∧
      f.window_id = { raw := 4 } ∧ f.nth = 5 ∧
      f.texture_format = { code := 6 } ∧ f.rect = { x := 1, y := 2, w := 30, h := 40 } ∧
      f.command_encoder = { data := { commands := [] }, poisoned := false }) :=
  ⟨Or.inl (by decide),
   raw_frame_new_empty_unvalidated { id := 0 } { device_id := 1, id := 0 } { raw := 4 } 5
     { device_id := 2, id := 3 } { code := 6 } { x := 1, y := 2, w := 30, h := 40 }
     (Or.inl (by decide))⟩

/-- Claim C8: every command recorded during the frame's lifetime is
submitted, in recording order, to the execution queue identified by the
handle's `queue` accessor, in exactly one submission performed by the
end-of-frame step (modelled from the spec, since the submitting
frame-lifecycle manager lies outside the unit under study). -/
theorem raw_frame_commands_submitted_once (f f2 : RawFrame)
    (css : List (List Command)) (hp : f.command_encoder.poisoned = false)
    (hrec : f.record_all css = Except.ok f2) :
    end_of_frame f2 =
      Except.ok [{ queue := f.queue
                   commands := f.command_encoder.data.commands ++ css.flatten }] ∧
    f2.queue = f.queue := by
  rw [record_all_ok css f hp] at hrec
  injection hrec with hrec
  subst hrec
  constructor
  · unfold end_of_frame RawFrame.finish sync.Mutex.into_inner
    simp
  · rfl

/-- Witness for C8: one session recording marker 9; the end-of-frame step
submits exactly one batch holding marker 9 to the handle's queue. -/
theorem raw_frame_commands_submitted_once_witness :
    frameW.command_encoder.poisoned = false ∧
    frameW.record_all [[{ marker := 9 }]] = Except.ok frameWsub ∧
    (end_of_frame frameWsub =
        Except.ok [{ queue := frameW.queue
                     commands := frameW.command_encoder.data.commands ++
                       [[{ marker := 9 }]].flatten }] ∧
      frameWsub.queue = frameW.queue) :=
  ⟨by decide, rfl,
   raw_frame_commands_submitted_once frameW frameWsub [[{ marker := 9 }]]
     (by decide) rfl⟩

/-- Claim C9: the unwrap performed during consumption (extracting the
encoder from its lock) requires that the lock not be held by anyone at
the time of the call — the only consuming transition of the lifecycle
carries the side condition that the lock is free, which is what Rust's
by-value `finish(self)` enforces — and failure of the unwrap (the
poisoned case, the one expressible violation) is reported by the
embedded panic of `expect`, an abort, never by returning a recoverable
error value. -/
theorem raw_frame_finish_unwrap_lock_free (s : SysState) (cs : List Command)
    (hstep : LifeStep (FrameLife.active s) (FrameLife.finished cs))
    (f : RawFrame) (hp : f.command_encoder.poisoned = true) :
    s.owner = none ∧ f.finish = Except.error "failed to lock command_encoder" := by
  constructor
  · cases hstep with
    | consume how => exact how
  · unfold RawFrame.finish sync.Mutex.into_inner
    rw [hp]
    simp

/-- Witness for C9: a concrete consuming transition from a lock-free
state, and a concrete poisoned frame whose `finish` aborts. -/
theorem raw_frame_finish_unwrap_lock_free_witness :
    LifeStep (FrameLife.active (init [[{ marker := 3 }]])) (FrameLife.finished []) ∧
    framePoisoned.command_encoder.poisoned = true ∧
    ((init [[{ marker := 3 }]]).owner = none ∧
      framePoisoned.finish = Except.error "failed to lock command_encoder") :=
  ⟨LifeStep.consume rfl, by decide,
   raw_frame_finish_unwrap_lock_free (init [[{ marker := 3 }]]) []
     (LifeStep.consume rfl) framePoisoned (by decide)⟩

/-- Claim C10: `finish` never blocks — it is a total function in this
embedding, mirroring that `finish(self)` consumes the frame by value so
no recording guard can be outstanding through the public interface when
it runs — its only failure mode is the abort on a lock poisoned by a
prior panicking guard holder, and in every non-poisoned execution it
succeeds, returning the recorded encoder. -/
theorem raw_frame_finish_never_blocks (f : RawFrame) :
    ((∃ e, f.finish = Except.error e) ↔ f.command_encoder.poisoned = true) ∧
    (f.command_encoder.poisoned = false →
      f.finish = Except.ok f.command_encoder.data) := by
  unfold RawFrame.finish sync.Mutex.into_inner
  cases hp : f.command_encoder.poisoned with
  | false => simp
  | true => simp

/-- Witness for C10: the poisoned concrete frame sits on the abort side
of the equivalence. -/
theorem raw_frame_finish_never_blocks_witness :
    ((∃ e, framePoisoned.finish = Except.error e) ↔
      framePoisoned.command_encoder.poisoned = true) ∧
    (framePoisoned.command_encoder.poisoned = false →
      framePoisoned.finish = Except.ok framePoisoned.command_encoder.data) :=
  raw_frame_finish_never_blocks framePoisoned

end Nannou

